import Mathlib

/-!
Verification of the hathora debug-view form and display components
(`Forms.tsx` and the state-display module) against their specification.

The components are React function components; every claim under scrutiny is
about the pure data transformations those components perform (array edit
operations, collapse heuristics, enum symbol-table lookups, optional
toggling, submit/reset bookkeeping, and the user-reference lookup state
machine).  Each transformation is embedded below as a pure Lean function,
translated directly from the TypeScript source; JS arrays become `List`,
`undefined` becomes `Option.none`, and TS `number` values appearing as enum
backing values become `Int`.
-/

namespace Hathora

/-! ## ArrayInput edit operations (`Forms.tsx`, lines 69–125)

`ArrayInput` renders an editable homogeneous array.  Its four edit
operations mutate the JS array and hand the full new sequence to `update`:

* `swapArgs(i1, i2)`: `[value[i1], value[i2]] = [value[i2], value[i1]]`
  (destructuring assignment: both reads happen before either write);
* `deleteArg(i)`: `value.splice(i, 1)`;
* append: `update(value.concat(initialVal))` on the Add button — every
  instantiation in the repository uses a non-array item type, for which
  `concat` appends exactly one element;
* per-item update: `update(Object.assign(value, { [i]: val }))`.
-/

/-- `swapArgs` of `ArrayInput` (Forms.tsx lines 70–73).  Both indices are
read from the original array, then written back swapped.  The buttons that
invoke it are disabled at the boundaries (see `moveUp` / `moveDown`), so it
is only ever called with both indices in range; out of range we leave the
array unchanged. -/
def swapArgs (value : List α) (i1 i2 : Nat) : List α :=
  match value[i1]?, value[i2]? with
  | some a, some b => (value.set i1 b).set i2 a
  | _, _ => value

/-- `deleteArg` of `ArrayInput` (Forms.tsx lines 74–77): `value.splice(i, 1)`
removes the element at index `i`, shifting later elements down. -/
def deleteArg (value : List α) (i : Nat) : List α :=
  value.take i ++ value.drop (i + 1)

/-- The Add button of `ArrayInput` (Forms.tsx line 117):
`update(value.concat(initialVal))`. -/
def appendArg (value : List α) (initialVal : α) : List α :=
  value ++ [initialVal]

/-- The per-item updater of `ArrayInput` (Forms.tsx line 82):
`update(Object.assign(value, { [i]: val }))` replaces index `i`. -/
def updateArg (value : List α) (i : Nat) (v : α) : List α :=
  value.set i v

/-- The move-up button (Forms.tsx lines 83–93): `disabled={i === 0}`,
otherwise `swapArgs(i, i - 1)`. -/
def moveUp (value : List α) (i : Nat) : List α :=
  if i = 0 then value else swapArgs value i (i - 1)

/-- The move-down button (Forms.tsx lines 94–104):
`disabled={i === value.length - 1}`, otherwise `swapArgs(i, i + 1)`. -/
def moveDown (value : List α) (i : Nat) : List α :=
  if i = value.length - 1 then value else swapArgs value i (i + 1)

/-! ## ArrayDisplay collapse heuristic (state-display module, lines 28–31)

`ArrayDisplay` initialises its collapse flag with
`props.value && ((typeof props.value[0] === "object" && props.value.length > 7)
|| props.value.length > 4)`.
A JS array (even an empty one) is always truthy, so the leading
`props.value &&` conjunct never changes the result; for an empty array
`props.value[0]` is `undefined`, whose `typeof` is `"undefined"`, not
`"object"`. -/

/-- A JS runtime value as far as `typeof`-dispatch in the display module is
concerned.  `obj` stands for any composite value (plain object); `undef` is
JS `undefined`, the result of indexing an array out of range. -/
inductive JsValue where
  | str (s : String)
  | num (n : Int)
  | boolean (b : Bool)
  | obj
  | undef
deriving DecidableEq

/-- JS `typeof`. -/
def jsTypeof : JsValue → String
  | .str _ => "string"
  | .num _ => "number"
  | .boolean _ => "boolean"
  | .obj => "object"
  | .undef => "undefined"

/-- `props.value[0]` in JS: the head, or `undefined` when the array is
empty. -/
def jsHead (value : List JsValue) : JsValue :=
  value.head?.getD JsValue.undef

/-- The initial value of `ArrayDisplay`'s `isCollapsed` state (state-display
module, lines 29–30).  The leading `props.value &&` is dropped because an
array is always truthy in JS. -/
def arrayDisplayInitialCollapsed (value : List JsValue) : Bool :=
  (jsTypeof (jsHead value) == "object" && decide (value.length > 7))
    || decide (value.length > 4)

/-! ## Enum symbol tables (`EnumDisplay`, `EnumInput`)

A symbol table is a JS object; `Object.entries` yields its `(key, value)`
pairs, which we model as a list.  TS numeric enums map each label to a
number and additionally contain reverse string-valued aliases (stringified
number → label). -/

/-- A value stored in an enum symbol-table object: either a numeric backing
value or a string-valued reverse alias. -/
inductive EnumVal where
  | num (n : Int)
  | str (s : String)
deriving DecidableEq

/-- `typeof val === "number"` for a symbol-table entry value. -/
def EnumVal.isNum : EnumVal → Bool
  | .num _ => true
  | .str _ => false

/-- The `labels` list of `EnumDisplay` (state-display module, lines 83–85):
`Object.entries(props.enum).filter(([_, value]) => typeof value ===
"number").map(([label, _]) => label)`. -/
def enumLabels (table : List (String × EnumVal)) : List String :=
  (table.filter (fun e => e.2.isNum)).map (fun e => e.1)

/-- What `EnumDisplay` renders (state-display module, line 86):
`labels[props.value]`.  JS array indexing never throws: a negative or
too-large index yields `undefined`, modelled as `none`. -/
def enumDisplay (table : List (String × EnumVal)) (value : Int) : Option String :=
  if 0 ≤ value then (enumLabels table)[value.toNat]? else none

/-- The choice list of `EnumInput` (Forms.tsx lines 166–168):
`Object.entries(enumType).filter(([_, val]) => typeof val ===
"number")`, each option carrying its `label` and its numeric `val`. -/
def enumInputOptions (table : List (String × EnumVal)) : List (String × Int) :=
  table.filterMap (fun e =>
    match e.2 with
    | .num n => some (e.1, n)
    | .str _ => none)

/-- Selecting the option at position `j` of the `Listbox` passes that
option's `value={val}` to `onChange={update}` (Forms.tsx lines 153, 169–171):
the Int handed to `onChange`, if the position exists. -/
def enumInputOnSelect (table : List (String × EnumVal)) (j : Nat) : Option Int :=
  ((enumInputOptions table)[j]?).map (fun opt => opt.2)

/-! ## OptionalInput (`Forms.tsx`, lines 127–149) -/

/-- The toggle handler of `OptionalInput` (Forms.tsx line 132):
`onChange={() => (value === undefined ? update(initialVal) :
update(undefined))}`.  Returns the value passed to `update`. -/
def optionalToggle (value : Option α) (initialVal : α) : Option α :=
  match value with
  | none => some initialVal
  | some _ => none

/-- The visual state of the toggle (Forms.tsx lines 131, 134, 141):
`checked={value !== undefined}`, re-derived from the current value on every
render. -/
def optionalChecked (value : Option α) : Bool :=
  value.isSome

/-! ## MethodForm submit handler (`Forms.tsx`, lines 43–67) -/

/-- A backend `Response` (from `./base`): tagged `success` or
`error{error: string}`. -/
inductive Response where
  | success
  | error (msg : String)
deriving DecidableEq

/-- Everything the submit click handler of `MethodForm` does (Forms.tsx
lines 52–58), as data: which value is passed to `submit`, which toast
notifications appear, and what the staged value is reset to. -/
structure SubmitOutcome (α : Type) where
  submitted : α
  toasts : List String
  newValue : α
deriving Repr

/-- The submit click handler of `MethodForm` (Forms.tsx lines 52–58):
`const res = await submit(value); if (res.type === "error")
toast.error(res.error); setValue(initialize());`.  `respond` is the
external submit operation's response to the payload; `mkValue` is the
`initialize` factory prop. -/
def methodFormSubmit (value : α) (respond : α → Response) (mkValue : Unit → α) :
    SubmitOutcome α :=
  { submitted := value
    toasts :=
      match respond value with
      | .error msg => [msg]
      | .success => []
    newValue := mkValue () }

/-- The submit button of `MethodForm` (Forms.tsx lines 50–63) carries no
`disabled` attribute and the component keeps no in-flight flag: the button
is enabled on every render. -/
def methodFormSubmitDisabled : Bool := false

/-! ## UserIdDisplay (state-display module, lines 89–148) -/

/-- The resolved user descriptor (`UserData` from `./base`); the two fields
the expanded panel shows. -/
structure UserData where
  id : String
  type : String
deriving DecidableEq, Repr

/-- The possible outcomes of the `lookupUser(value)` promise as observed by
the component: still pending, resolved with `undefined`, resolved with a
descriptor, or rejected (the `.then` has no rejection handler, so a
rejection never calls `setUserData`). -/
inductive LookupOutcome where
  | pending
  | resolvedNone
  | resolvedSome (d : UserData)
  | rejected
deriving DecidableEq

/-- The component-local state of `UserIdDisplay`: `isCollapsed` and
`userData` (state-display module, lines 90–91). -/
structure UserIdState where
  isCollapsed : Bool
  userData : Option UserData
deriving DecidableEq

/-- Initial state at mount: `useState<boolean>(true)` and
`useState<UserData>()` (state-display module, lines 90–91). -/
def userIdInitState : UserIdState :=
  { isCollapsed := true, userData := none }

/-- How a lookup outcome updates the state (state-display module, lines
92–94): only a fulfilled promise calls `setUserData`; a rejection is
unhandled and changes nothing. -/
def applyLookup (s : UserIdState) (r : LookupOutcome) : UserIdState :=
  match r with
  | .resolvedSome d => { s with userData := some d }
  | .resolvedNone => { s with userData := none }
  | .pending => s
  | .rejected => s

/-- The collapse-toggle button (state-display module, line 127):
`setIsCollapsed(!isCollapsed)`. -/
def userIdToggle (s : UserIdState) : UserIdState :=
  { s with isCollapsed := !s.isCollapsed }

/-- `UserIdDisplay` contains no `toast` call and no retry logic: no
notification is ever emitted, whatever the lookup outcome. -/
def userIdNotifications (_r : LookupOutcome) : List String := []

/-- What `UserIdDisplay` renders: either the raw identifier next to the
generic `UserCircleIcon` (lines 95–104), or a collapsible panel showing the
display name and, when expanded, exactly the two labelled fields
`UserId: userData.id` and `type: userData.type` (lines 113–147). -/
inductive UserIdRendered where
  | raw (id : String)
  | panel (displayName : String) (collapsed : Bool) (fields : List (String × String))
deriving DecidableEq

/-- The render function of `UserIdDisplay` (state-display module, lines
95–147), parametrised by the external `getUserDisplayName`. -/
def renderUserId (value : String) (s : UserIdState)
    (getUserDisplayName : UserData → String) : UserIdRendered :=
  match s.userData with
  | none => .raw value
  | some d =>
      .panel (getUserDisplayName d) s.isCollapsed
        (if s.isCollapsed then [] else [("UserId", d.id), ("type", d.type)])

/-! ## The display/edit enum-label refinement (C10)

`EnumDisplay` shows `labels[value]`, position-based among the
numeric-valued entries, while `EnumInput`'s closed button shows
`enumType[value]` (Forms.tsx line 157) — a property lookup by the
stringified number, i.e. the reverse mapping the TS compiler adds to a
numeric enum object.

We model an enum *declaration* as the ordered list of `(label, value)`
pairs.  The emitted JS object then holds, for each pair, the forward entry
`label → value` and the reverse alias `String(value) → label` (later
assignments overwrite earlier ones for duplicate values).  Since object
keys are unique, a well-formed declaration has pairwise distinct labels. -/

/-- The `Object.entries` view of the emitted enum object restricted to what
the two pipelines inspect: every reverse alias is string-valued and every
forward entry is numeric, so the numeric filter of both pipelines keeps
exactly the forward entries, in declaration order.  (JS enumerates
integer-like keys first, hence the aliases are listed first; both pipelines
filter them out, so their exact order is irrelevant.) -/
def enumObjectEntries (decl : List (String × Int)) : List (String × EnumVal) :=
  decl.map (fun e => (toString e.2, EnumVal.str e.1))
    ++ decl.map (fun e => (e.1, EnumVal.num e.2))

/-- `enumType[value]` on the emitted enum object (Forms.tsx line 157): the
reverse-mapping lookup.  For duplicate backing values the later declaration
overwrites the earlier alias, hence the search from the end. -/
def enumButtonLabel (decl : List (String × Int)) (value : Int) : Option String :=
  (decl.reverse.find? (fun e => e.2 == value)).map (fun e => e.1)

/-! ### Helper lemmas about the array operations -/

theorem swapArgs_eq_of_lt {value : List α} {i1 i2 : Nat}
    (h1 : i1 < value.length) (h2 : i2 < value.length) :
    swapArgs value i1 i2 = (value.set i1 (value[i2])).set i2 (value[i1]) := by
  unfold swapArgs
  rw [List.getElem?_eq_getElem h1, List.getElem?_eq_getElem h2]

theorem swapArgs_length {value : List α} {i1 i2 : Nat}
    (h1 : i1 < value.length) (h2 : i2 < value.length) :
    (swapArgs value i1 i2).length = value.length := by
  rw [swapArgs_eq_of_lt h1 h2]
  simp

theorem swapArgs_getElem?_ne {value : List α} {i1 i2 j : Nat}
    (h1 : i1 < value.length) (h2 : i2 < value.length)
    (hj1 : j ≠ i1) (hj2 : j ≠ i2) :
    (swapArgs value i1 i2)[j]? = value[j]? := by
  rw [swapArgs_eq_of_lt h1 h2]
  rw [List.getElem?_set_ne (Ne.symm hj2), List.getElem?_set_ne (Ne.symm hj1)]

theorem swapArgs_getElem?_fst {value : List α} {i1 i2 : Nat}
    (h1 : i1 < value.length) (h2 : i2 < value.length) (hne : i1 ≠ i2) :
    (swapArgs value i1 i2)[i1]? = value[i2]? := by
  rw [swapArgs_eq_of_lt h1 h2]
  rw [List.getElem?_set_ne hne.symm, List.getElem?_set_self h1,
    List.getElem?_eq_getElem h2]

theorem swapArgs_getElem?_snd {value : List α} {i1 i2 : Nat}
    (h1 : i1 < value.length) (h2 : i2 < value.length) :
    (swapArgs value i1 i2)[i2]? = value[i1]? := by
  rw [swapArgs_eq_of_lt h1 h2]
  rw [List.getElem?_set_self (by simpa using h2), List.getElem?_eq_getElem h1]

theorem swapArgs_swapArgs {value : List α} {i1 i2 : Nat}
    (h1 : i1 < value.length) (h2 : i2 < value.length) :
    swapArgs (swapArgs value i1 i2) i1 i2 = value := by
  by_cases hne : i1 = i2
  · subst hne
    apply List.ext_getElem?
    intro j
    by_cases hj : j = i1
    · subst hj
      rw [swapArgs_getElem?_snd (by rwa [swapArgs_length h1 h1]) (by rwa [swapArgs_length h1 h1]),
        swapArgs_getElem?_snd h1 h1]
    · rw [swapArgs_getElem?_ne (by rwa [swapArgs_length h1 h1]) (by rwa [swapArgs_length h1 h1]) hj hj,
        swapArgs_getElem?_ne h1 h1 hj hj]
  · have h1' : i1 < (swapArgs value i1 i2).length := by rwa [swapArgs_length h1 h2]
    have h2' : i2 < (swapArgs value i1 i2).length := by rwa [swapArgs_length h1 h2]
    apply List.ext_getElem?
    intro j
    by_cases hj1 : j = i1
    · subst hj1
      rw [swapArgs_getElem?_fst h1' h2' hne, swapArgs_getElem?_snd h1 h2]
    · by_cases hj2 : j = i2
      · subst hj2
        rw [swapArgs_getElem?_snd h1' h2', swapArgs_getElem?_fst h1 h2 hne]
      · rw [swapArgs_getElem?_ne h1' h2' hj1 hj2, swapArgs_getElem?_ne h1 h2 hj1 hj2]

theorem deleteArg_length {value : List α} {i : Nat} (h : i < value.length) :
    (deleteArg value i).length = value.length - 1 := by
  unfold deleteArg
  simp only [List.length_append, List.length_take, List.length_drop]
  omega

theorem deleteArg_getElem?_lt {value : List α} {i j : Nat} (h : j < i) :
    (deleteArg value i)[j]? = value[j]? := by
  unfold deleteArg
  rcases Nat.lt_or_ge j (value.take i).length with hj | hj
  · rw [List.getElem?_append_left hj, List.getElem?_take_of_lt h]
  · simp only [List.length_take] at hj
    rw [List.getElem?_append_right (by simpa [List.length_take] using hj)]
    have hlen : value.length ≤ i := by omega
    rw [List.getElem?_drop]
    rw [List.getElem?_eq_none (by omega), List.getElem?_eq_none (by omega)]

theorem deleteArg_getElem?_ge {value : List α} {i j : Nat}
    (hi : i < value.length) (h : i ≤ j) :
    (deleteArg value i)[j]? = value[j + 1]? := by
  unfold deleteArg
  have htake : (value.take i).length = i := by
    simp [List.length_take]; omega
  rw [List.getElem?_append_right (by omega), List.getElem?_drop, htake]
  congr 1
  omega

theorem appendArg_length (value : List α) (d : α) :
    (appendArg value d).length = value.length + 1 := by
  simp [appendArg]

theorem appendArg_getElem?_lt {value : List α} {j : Nat} (d : α)
    (h : j < value.length) :
    (appendArg value d)[j]? = value[j]? := by
  unfold appendArg
  rw [List.getElem?_append_left h]

/-! ## Claim theorems -/

/-- C1: every `ArrayInput` edit operation, at any valid index, preserves the
relative order of the untouched items and changes the length exactly as
specified — append (`concat` of the caller-supplied default) yields
`length + 1` with all prior items unchanged in place; delete at `i` yields
`length - 1` with subsequent items shifted down by one; swap-adjacent and
per-item update leave the length unchanged and every index other than the
touched one(s) unchanged. -/
theorem arrayInput_ops_preserve_order_and_length {α : Type} (value : List α)
    (d v : α) (i i1 i2 : Nat)
    (hi : i < value.length) (h1 : i1 < value.length) (h2 : i2 < value.length) :
    ((appendArg value d).length = value.length + 1
        ∧ ∀ j, j < value.length → (appendArg value d)[j]? = value[j]?)
    ∧ ((deleteArg value i).length = value.length - 1
        ∧ (∀ j, j < i → (deleteArg value i)[j]? = value[j]?)
        ∧ (∀ j, i ≤ j → (deleteArg value i)[j]? = value[j + 1]?))
    ∧ ((swapArgs value i1 i2).length = value.length
        ∧ ∀ j, j ≠ i1 → j ≠ i2 → (swapArgs value i1 i2)[j]? = value[j]?)
    ∧ ((updateArg value i v).length = value.length
        ∧ ∀ j, j ≠ i → (updateArg value i v)[j]? = value[j]?) := by
  refine ⟨⟨appendArg_length value d, fun j hj => appendArg_getElem?_lt d hj⟩,
    ⟨deleteArg_length hi, fun j hj => deleteArg_getElem?_lt hj,
      fun j hj => deleteArg_getElem?_ge hi hj⟩,
    ⟨swapArgs_length h1 h2, fun j hj1 hj2 => swapArgs_getElem?_ne h1 h2 hj1 hj2⟩,
    ?_, fun j hj => ?_⟩
  · simp [updateArg]
  · exact List.getElem?_set_ne (Ne.symm hj)

/-- Witness for C1 at `value = [10, 20, 30]`, `d = 99`, `v = 7`, `i = 1`,
`i1 = 0`, `i2 = 1`. -/
theorem arrayInput_ops_preserve_order_and_length_witness :
    (1 < ([10, 20, 30] : List Nat).length
      ∧ 0 < ([10, 20, 30] : List Nat).length)
    ∧ (((appendArg [10, 20, 30] 99).length = ([10, 20, 30] : List Nat).length + 1
        ∧ ∀ j, j < ([10, 20, 30] : List Nat).length →
            (appendArg [10, 20, 30] 99)[j]? = ([10, 20, 30] : List Nat)[j]?)
      ∧ ((deleteArg [10, 20, 30] 1).length = ([10, 20, 30] : List Nat).length - 1
          ∧ (∀ j, j < 1 → (deleteArg [10, 20, 30] 1)[j]? = ([10, 20, 30] : List Nat)[j]?)
          ∧ (∀ j, 1 ≤ j → (deleteArg [10, 20, 30] 1)[j]? = ([10, 20, 30] : List Nat)[j + 1]?))
      ∧ ((swapArgs [10, 20, 30] 0 1).length = ([10, 20, 30] : List Nat).length
          ∧ ∀ j, j ≠ 0 → j ≠ 1 → (swapArgs [10, 20, 30] 0 1)[j]? = ([10, 20, 30] : List Nat)[j]?)
      ∧ ((updateArg [10, 20, 30] 1 7).length = ([10, 20, 30] : List Nat).length
          ∧ ∀ j, j ≠ 1 → (updateArg [10, 20, 30] 1 7)[j]? = ([10, 20, 30] : List Nat)[j]?)) :=
  ⟨⟨by decide, by decide⟩,
    arrayInput_ops_preserve_order_and_length [10, 20, 30] 99 7 1 0 1
      (by decide) (by decide) (by decide)⟩

/-- C2: `ArrayInput`'s swap-adjacent is its own inverse — swapping
`(i, i + 1)` twice restores the original sequence — and the swap controls
are inert at the boundaries: move-up is disabled at index 0 and move-down
is disabled at the last index. -/
theorem arrayInput_swap_involution_and_boundaries {α : Type} (value : List α)
    (i : Nat) (h : i + 1 < value.length) :
    swapArgs (swapArgs value i (i + 1)) i (i + 1) = value
    ∧ moveUp value 0 = value
    ∧ moveDown value (value.length - 1) = value := by
  refine ⟨swapArgs_swapArgs (Nat.lt_of_succ_lt h) h, by simp [moveUp], ?_⟩
  simp [moveDown]

/-- Witness for C2 at `value = [1, 2, 3]`, `i = 1`. -/
theorem arrayInput_swap_involution_and_boundaries_witness :
    (1 + 1 < ([1, 2, 3] : List Nat).length)
    ∧ (swapArgs (swapArgs [1, 2, 3] 1 (1 + 1)) 1 (1 + 1) = ([1, 2, 3] : List Nat)
      ∧ moveUp [1, 2, 3] 0 = ([1, 2, 3] : List Nat)
      ∧ moveDown [1, 2, 3] (([1, 2, 3] : List Nat).length - 1) = ([1, 2, 3] : List Nat)) :=
  ⟨by decide, arrayInput_swap_involution_and_boundaries [1, 2, 3] 1 (by decide)⟩

/-- C3: appending the caller-supplied default and then deleting the last
index returns the original sequence. -/
theorem arrayInput_append_then_delete_last {α : Type} (value : List α) (d : α) :
    deleteArg (appendArg value d) value.length = value := by
  apply List.ext_getElem?
  intro j
  rcases Nat.lt_or_ge j value.length with hj | hj
  · rw [deleteArg_getElem?_lt hj, appendArg_getElem?_lt d hj]
  · rw [deleteArg_getElem?_ge (by simp [appendArg_length]) hj]
    rw [List.getElem?_eq_none (by simp [appendArg_length]; omega),
      List.getElem?_eq_none hj]

/-- C4: `ArrayDisplay`'s initial collapse state equals the heuristic —
collapsed iff the sequence is non-empty and ((the first item is a
composite/object shape and length > 7) or length > 4); in particular 5
scalar items default to collapsed, 4 scalar items to expanded, and 1 object
item to expanded. -/
theorem arrayDisplay_collapse_heuristic :
    (∀ value : List JsValue,
        arrayDisplayInitialCollapsed value
          = (!value.isEmpty
              && ((jsTypeof (jsHead value) == "object" && decide (value.length > 7))
                  || decide (value.length > 4))))
    ∧ arrayDisplayInitialCollapsed
        [.num 1, .num 2, .num 3, .num 4, .num 5] = true
    ∧ arrayDisplayInitialCollapsed [.num 1, .num 2, .num 3, .num 4] = false
    ∧ arrayDisplayInitialCollapsed [.obj] = false := by
  refine ⟨fun value => ?_, by decide, by decide, by decide⟩
  cases value with
  | nil => decide
  | cons a t => simp [arrayDisplayInitialCollapsed]

/-- C5: `EnumDisplay` for value `k` renders the label at position `k` among
the numeric-valued entries of the symbol table whenever `k` is in range,
and for `k` outside `[0, number of numeric entries)` the lookup yields
nothing rather than crashing. -/
theorem enumDisplay_position_lookup (table : List (String × EnumVal)) :
    (∀ (k : Nat) (h : k < (enumLabels table).length),
        enumDisplay table (k : Int) = some ((enumLabels table).get ⟨k, h⟩))
    ∧ ∀ k : Int, k < 0 ∨ ((enumLabels table).length : Int) ≤ k →
        enumDisplay table k = none := by
  constructor
  · intro k h
    unfold enumDisplay
    rw [if_pos (by omega)]
    simp [List.getElem?_eq_getElem h]
  · intro k hk
    unfold enumDisplay
    rcases hk with hk | hk
    · rw [if_neg (by omega)]
    · rcases Int.lt_or_le k 0 with hneg | hpos
      · rw [if_neg (by omega)]
      · rw [if_pos hpos]
        exact List.getElem?_eq_none (by omega)

/-- Witness for C5 at the symbol table
`{A: 0, "0": "A", B: 1, "1": "B"}` (a two-member numeric enum with its
reverse aliases), `k = 1` in range and `k = -1`, `k = 5` out of range. -/
theorem enumDisplay_position_lookup_witness :
    (1 < (enumLabels
        [("A", EnumVal.num 0), ("0", EnumVal.str "A"),
          ("B", EnumVal.num 1), ("1", EnumVal.str "B")]).length
      ∧ enumDisplay
        [("A", EnumVal.num 0), ("0", EnumVal.str "A"),
          ("B", EnumVal.num 1), ("1", EnumVal.str "B")] ((1 : Nat) : Int)
        = some ((enumLabels
            [("A", EnumVal.num 0), ("0", EnumVal.str "A"),
              ("B", EnumVal.num 1), ("1", EnumVal.str "B")]).get ⟨1, by decide⟩))
    ∧ enumDisplay
        [("A", EnumVal.num 0), ("0", EnumVal.str "A"),
          ("B", EnumVal.num 1), ("1", EnumVal.str "B")] (-1) = none
    ∧ enumDisplay
        [("A", EnumVal.num 0), ("0", EnumVal.str "A"),
          ("B", EnumVal.num 1), ("1", EnumVal.str "B")] 5 = none :=
  ⟨⟨by decide, (enumDisplay_position_lookup _).1 1 (by decide)⟩,
    (enumDisplay_position_lookup _).2 (-1) (Or.inl (by decide)),
    (enumDisplay_position_lookup _).2 5 (Or.inr (by decide))⟩

/-- C6: `EnumInput`'s choice list contains exactly the entries of the
symbol table whose backing value is numeric (string-valued aliases
excluded), and selecting a label invokes `onChange` with that label's
numeric value. -/
theorem enumInput_options_and_selection (table : List (String × EnumVal)) :
    (∀ (l : String) (n : Int),
        (l, n) ∈ enumInputOptions table ↔ (l, EnumVal.num n) ∈ table)
    ∧ ∀ (j : Nat) (l : String) (n : Int),
        (enumInputOptions table)[j]? = some (l, n) →
        enumInputOnSelect table j = some n ∧ (l, EnumVal.num n) ∈ table := by
  have hmem : ∀ (l : String) (n : Int),
      (l, n) ∈ enumInputOptions table ↔ (l, EnumVal.num n) ∈ table := by
    intro l n
    unfold enumInputOptions
    rw [List.mem_filterMap]
    constructor
    · rintro ⟨⟨l', v⟩, hv, hf⟩
      cases v with
      | num m =>
          simp only [Option.some_inj, Prod.mk.injEq] at hf
          obtain ⟨rfl, rfl⟩ := hf
          exact hv
      | str s => simp at hf
    · intro h
      exact ⟨(l, EnumVal.num n), h, rfl⟩
  refine ⟨hmem, fun j l n hj => ?_⟩
  constructor
  · unfold enumInputOnSelect
    rw [hj]
    rfl
  · exact (hmem l n).mp (List.getElem?_mem hj)

/-- Witness for C6 at the symbol table
`{A: 0, "0": "A", B: 1, "1": "B"}`, selecting position 1 (label `B`). -/
theorem enumInput_options_and_selection_witness :
    ((enumInputOptions
        [("A", EnumVal.num 0), ("0", EnumVal.str "A"),
          ("B", EnumVal.num 1), ("1", EnumVal.str "B")])[1]? = some ("B", 1))
    ∧ (("B", (1 : Int)) ∈ enumInputOptions
          [("A", EnumVal.num 0), ("0", EnumVal.str "A"),
            ("B", EnumVal.num 1), ("1", EnumVal.str "B")]
        ↔ ("B", EnumVal.num 1) ∈
          [("A", EnumVal.num 0), ("0", EnumVal.str "A"),
            ("B", EnumVal.num 1), ("1", EnumVal.str "B")])
    ∧ (enumInputOnSelect
          [("A", EnumVal.num 0), ("0", EnumVal.str "A"),
            ("B", EnumVal.num 1), ("1", EnumVal.str "B")] 1 = some 1
        ∧ ("B", EnumVal.num 1) ∈
          [("A", EnumVal.num 0), ("0", EnumVal.str "A"),
            ("B", EnumVal.num 1), ("1", EnumVal.str "B")]) :=
  ⟨by decide, (enumInput_options_and_selection _).1 "B" 1,
    (enumInput_options_and_selection _).2 1 "B" 1 (by decide)⟩

/-- C7: toggling `OptionalInput` when the value is absent invokes
`onChange` with the caller-supplied default, toggling when present invokes
`onChange` with absent (discarding the inner value unconditionally), the
sequence present→absent→present yields the caller's default, and the
toggle's visual state is re-derived from `value !== undefined`. -/
theorem optionalInput_toggle_spec {α : Type} (d v : α) :
    optionalToggle (none : Option α) d = some d
    ∧ optionalToggle (some v) d = none
    ∧ optionalToggle (optionalToggle (some v) d) d = some d
    ∧ optionalChecked (some v) = true
    ∧ optionalChecked (none : Option α) = false :=
  ⟨rfl, rfl, rfl, rfl, rfl⟩

/-- C8: `MethodForm` passes the staged value unchanged to the external
submit operation; an `error` response surfaces its message as a toast; the
staged value is reset to a fresh instance from the factory regardless of
the outcome; and no in-flight guard disables the submit button, so a
further submission (e.g. of the freshly reset value) proceeds. -/
theorem methodForm_submit_spec {α : Type} (value : α) (respond : α → Response)
    (mkValue : Unit → α) :
    (methodFormSubmit value respond mkValue).submitted = value
    ∧ (∀ msg, respond value = .error msg →
        (methodFormSubmit value respond mkValue).toasts = [msg])
    ∧ (respond value = .success →
        (methodFormSubmit value respond mkValue).toasts = [])
    ∧ (methodFormSubmit value respond mkValue).newValue = mkValue ()
    ∧ methodFormSubmitDisabled = false
    ∧ (methodFormSubmit (methodFormSubmit value respond mkValue).newValue
        respond mkValue).submitted = mkValue () := by
  refine ⟨rfl, fun msg h => ?_, fun h => ?_, rfl, rfl, rfl⟩
  · simp [methodFormSubmit, h]
  · simp [methodFormSubmit, h]

/-- Witness for C8: a `voteInQuest`-style payload `(questId 2, vote 1)`,
whose submission answers `error "already voted"`; the notification reads
"already voted" and the form resets to the default payload `(0, 0)`. -/
theorem methodForm_submit_spec_witness :
    ((fun _ : Nat × Int => Response.error "already voted") ((2 : Nat), (1 : Int))
        = Response.error "already voted")
    ∧ (methodFormSubmit ((2 : Nat), (1 : Int))
        (fun _ => Response.error "already voted") (fun _ => (0, 0))).submitted
        = (2, 1)
    ∧ (methodFormSubmit ((2 : Nat), (1 : Int))
        (fun _ => Response.error "already voted") (fun _ => (0, 0))).toasts
        = ["already voted"]
    ∧ (methodFormSubmit ((2 : Nat), (1 : Int))
        (fun _ => Response.error "already voted") (fun _ => (0, 0))).newValue
        = (0, 0)
    ∧ methodFormSubmitDisabled = false :=
  ⟨rfl,
    (methodForm_submit_spec ((2 : Nat), (1 : Int))
      (fun _ => Response.error "already voted") (fun _ => (0, 0))).1,
    (methodForm_submit_spec ((2 : Nat), (1 : Int))
      (fun _ => Response.error "already voted") (fun _ => (0, 0))).2.1
      "already voted" rfl,
    (methodForm_submit_spec ((2 : Nat), (1 : Int))
      (fun _ => Response.error "already voted") (fun _ => (0, 0))).2.2.2.1,
    (methodForm_submit_spec ((2 : Nat), (1 : Int))
      (fun _ => Response.error "already voted") (fun _ => (0, 0))).2.2.2.2.1⟩

/-- C9: `UserIdDisplay` shows only the raw identifier while the lookup is
pending, resolved to `undefined`, or rejected (no notification, no state
change on rejection); once resolved to a descriptor it becomes a
collapsible panel, initially collapsed, and expanding shows exactly the two
fields `UserId` and `type` from the lookup result. -/
theorem userIdDisplay_lookup_and_collapse (value : String) (d : UserData)
    (getUserDisplayName : UserData → String) :
    userIdInitState.isCollapsed = true
    ∧ renderUserId value userIdInitState getUserDisplayName = .raw value
    ∧ renderUserId value (applyLookup userIdInitState .pending)
        getUserDisplayName = .raw value
    ∧ renderUserId value (applyLookup userIdInitState .resolvedNone)
        getUserDisplayName = .raw value
    ∧ renderUserId value (applyLookup userIdInitState .rejected)
        getUserDisplayName = .raw value
    ∧ applyLookup userIdInitState .rejected = userIdInitState
    ∧ (∀ r, userIdNotifications r = [])
    ∧ renderUserId value (applyLookup userIdInitState (.resolvedSome d))
        getUserDisplayName = .panel (getUserDisplayName d) true []
    ∧ renderUserId value (userIdToggle (applyLookup userIdInitState (.resolvedSome d)))
        getUserDisplayName
        = .panel (getUserDisplayName d) false [("UserId", d.id), ("type", d.type)] :=
  ⟨rfl, rfl, rfl, rfl, rfl, rfl, fun _ => rfl, rfl, rfl⟩

/-! ### Helper lemmas for the display/edit enum-label comparison (C10) -/

theorem enumLabels_enumObjectEntries (decl : List (String × Int)) :
    enumLabels (enumObjectEntries decl) = decl.map (fun e => e.1) := by
  unfold enumLabels enumObjectEntries
  rw [List.filter_append, List.filter_map, List.filter_map]
  simp [Function.comp_def, EnumVal.isNum]

theorem reverse_find?_of_values_nodup {decl : List (String × Int)} {k : Int}
    {i : Nat} (hnd : (decl.map (fun e => e.2)).Nodup)
    (hi : i < decl.length) (hk : (decl[i]).2 = k) :
    decl.reverse.find? (fun e => e.2 == k) = some decl[i] := by
  have hne : decl.reverse.find? (fun e => e.2 == k) ≠ none := by
    rw [Ne, List.find?_eq_none]
    push_neg
    exact ⟨decl[i], List.mem_reverse.mpr (List.getElem_mem hi), by simp [hk]⟩
  obtain ⟨x, hx⟩ := Option.ne_none_iff_exists'.mp hne
  have hxmem : x ∈ decl := by
    have := List.mem_of_find?_eq_some hx
    simpa [List.mem_reverse] using this
  have hxk : x.2 = k := by simpa using List.find?_some hx
  obtain ⟨j, hj, hxj⟩ := List.mem_iff_getElem.mp hxmem
  have hji : j = i := by
    have hj2 : j < (decl.map (fun e => e.2)).length := by simpa using hj
    have hi2 : i < (decl.map (fun e => e.2)).length := by simpa using hi
    have hmap : (decl.map (fun e => e.2))[j] = (decl.map (fun e => e.2))[i] := by
      simp only [List.getElem_map]
      rw [hxj, hxk, hk]
    exact hnd.getElem_inj_iff.mp hmap
  subst hji
  rw [hx]
  exact congrArg some hxj.symm

/-- C10: `EnumDisplay` (position-indexing into the numeric-entry labels)
and `EnumInput`'s button (`enumType[value]`, the reverse-mapping lookup)
agree on every in-range value exactly when the declaration's numeric values
are `0..n-1` in declaration order: for such a table they are equal on all
in-range values, and for a well-formed table (distinct labels, as JS object
keys are unique) with any other values some in-range value distinguishes
them. -/
theorem enumDisplay_vs_enumButton :
    (∀ (decl : List (String × Int)) (n k : Nat),
        decl.map (fun e => e.2) = List.map (fun j : Nat => (j : Int)) (List.range n) →
        k < n →
        enumDisplay (enumObjectEntries decl) ((k : Nat) : Int)
          = enumButtonLabel decl ((k : Nat) : Int))
    ∧ ∀ decl : List (String × Int),
        (decl.map (fun e => e.1)).Nodup →
        decl.map (fun e => e.2)
          ≠ List.map (fun j : Nat => (j : Int)) (List.range decl.length) →
        ∃ k, k < decl.length ∧
          enumDisplay (enumObjectEntries decl) ((k : Nat) : Int)
            ≠ enumButtonLabel decl ((k : Nat) : Int) := by
  have hlen : ∀ (decl : List (String × Int)) (n : Nat),
      decl.map (fun e => e.2) = List.map (fun j : Nat => (j : Int)) (List.range n) →
      decl.length = n := by
    intro decl n h
    have := congrArg List.length h
    simpa using this
  have hdisp : ∀ (decl : List (String × Int)) (k : Nat) (hk : k < decl.length),
      enumDisplay (enumObjectEntries decl) ((k : Nat) : Int)
        = some ((decl[k]).1) := by
    intro decl k hk
    unfold enumDisplay
    rw [if_pos (by omega), enumLabels_enumObjectEntries]
    simp only [Int.toNat_natCast]
    rw [List.getElem?_eq_getElem (by simpa using hk)]
    simp
  constructor
  · intro decl n k h hk
    have hl := hlen decl n h
    have hk' : k < decl.length := by omega
    have hval : (decl[k]).2 = (k : Int) := by
      have hka : k < (decl.map (fun e => e.2)).length := by simpa using hk'
      have hkb : k < (List.map (fun j : Nat => (j : Int)) (List.range n)).length := by
        simpa using hk
      have h1 : (decl.map (fun e => e.2))[k]
          = (List.map (fun j : Nat => (j : Int)) (List.range n))[k] := by
        simp only [h]
      simpa using h1
    have hnd : (decl.map (fun e => e.2)).Nodup := by
      rw [h]
      exact (List.nodup_range n).map (fun a b hab => by exact_mod_cast hab)
    rw [hdisp decl k hk']
    unfold enumButtonLabel
    rw [reverse_find?_of_values_nodup hnd hk' hval]
    rfl
  · intro decl hlbl hne
    by_contra hno
    push_neg at hno
    apply hne
    apply List.ext_getElem (by simp)
    intro i h1 h2
    simp only [List.getElem_map, List.getElem_range]
    have hi : i < decl.length := by simpa using h1
    have heq := hno i hi
    rw [hdisp decl i hi] at heq
    unfold enumButtonLabel at heq
    obtain ⟨x, hx, hx1⟩ : ∃ x, decl.reverse.find? (fun e => e.2 == (i : Int)) = some x
        ∧ x.1 = (decl[i]).1 := by
      rcases hfind : decl.reverse.find? (fun e => e.2 == (i : Int)) with _ | x
      · rw [hfind] at heq
        simp at heq
      · rw [hfind] at heq
        exact ⟨x, hfind, (Option.some_inj.mp heq).symm⟩
    have hxmem : x ∈ decl := by
      have := List.mem_of_find?_eq_some hx
      simpa [List.mem_reverse] using this
    have hxk : x.2 = (i : Int) := by simpa using List.find?_some hx
    obtain ⟨j, hj, hxj⟩ := List.mem_iff_getElem.mp hxmem
    have hji : j = i := by
      have hj2 : j < (decl.map (fun e => e.1)).length := by simpa using hj
      have hi2 : i < (decl.map (fun e => e.1)).length := by simpa using hi
      have hmap : (decl.map (fun e => e.1))[j] = (decl.map (fun e => e.1))[i] := by
        simp only [List.getElem_map]
        rw [hxj, hx1]
      exact hlbl.getElem_inj_iff.mp hmap
    subst hji
    rw [← hxj] at hxk
    exact hxk

/-- Witness for C10: the declaration `{A = 0, B = 1}` (values exactly
`0..1` in order) makes display and button agree at `k = 1`, while the
declaration `{A = 1, B = 0}` (permuted values) is distinguished at some
in-range value. -/
theorem enumDisplay_vs_enumButton_witness :
    (([("A", (0 : Int)), ("B", 1)].map (fun e => e.2)
        = List.map (fun j : Nat => (j : Int)) (List.range 2) ∧ 1 < 2)
      ∧ enumDisplay (enumObjectEntries [("A", 0), ("B", 1)]) ((1 : Nat) : Int)
          = enumButtonLabel [("A", 0), ("B", 1)] ((1 : Nat) : Int))
    ∧ ∃ k, k < ([("A", (1 : Int)), ("B", 0)] : List (String × Int)).length ∧
        enumDisplay (enumObjectEntries [("A", 1), ("B", 0)]) ((k : Nat) : Int)
          ≠ enumButtonLabel [("A", 1), ("B", 0)] ((k : Nat) : Int) :=
  ⟨⟨⟨by decide, by decide⟩,
      enumDisplay_vs_enumButton.1 [("A", 0), ("B", 1)] 2 1 (by decide) (by decide)⟩,
    enumDisplay_vs_enumButton.2 [("A", 1), ("B", 0)] (by decide) (by decide)⟩

end Hathora
